import Mathlib

/-!
Verification of the SME intelligence backend (src/server.js) against its
natural-language specification.

The file shallowly embeds the algorithmic core of server.js in Lean:

* the name-identity hash (generateNameHash, a SHA-256 of a normalized
  name:province string),
* the CPA matching engine (CPAMatchingEngine) with its six weighted
  sub-scores, score aggregation and ranking,
* the grid parser of the CPABC scraper (its row-level record extraction),
* the dedup insert step shared by all scrapers,
* the Alberta adaptive-narrowing enumeration,
* the generic scrape loop with its consecutive-failure counter, session
  re-establishment and scrape-job lifecycle.

Modelling conventions, chosen to mirror JavaScript semantics:

* JavaScript numbers are modelled as rationals; the one place where NaN is
  reachable (a 0/0 inside calculateBudgetAlignment) is modelled with the
  two-constructor type JNum (nan or a finite rational).  Infinities do not
  arise on the modelled code paths (the only divisions are by quantities
  that are zero at most simultaneously with the numerator, or that are
  guarded nonzero by a JS truthiness test).
* A possibly-missing numeric field is an Option over rationals; JS
  truthiness of such a field is false exactly for a missing field or the
  value 0.
* A possibly-missing string field is a JField String: absent (undefined),
  val s (a string), or bad (a present non-string value - truthy, and any
  string method invoked on it throws a TypeError).  The throw is modelled
  with Except, mirroring the try/catch of calculateMatchScore.
* String.prototype.toLowerCase is modelled on its ASCII fragment
  (Char.toLower), which is exact for all the data the claims mention.
-/

/-- A JavaScript number that is either NaN or a finite rational. -/
inductive JNum where
  | nan : JNum
  | fin : ℚ → JNum
deriving DecidableEq, Repr

/-- Addition on JS numbers: NaN propagates. -/
def jadd : JNum → JNum → JNum
  | .fin a, .fin b => .fin (a + b)
  | _, _ => .nan

/-- Multiplication of a JS number by a rational constant: NaN propagates. -/
def jmulC : JNum → ℚ → JNum
  | .fin a, w => .fin (a * w)
  | .nan, _ => .nan

/-- Math.round: floor(x + 1/2) on finite numbers, NaN on NaN. -/
def jround : JNum → JNum
  | .fin a => .fin ((⌊a + 1/2⌋ : ℤ) : ℚ)
  | .nan => .nan

/-- The comparison s >= c as JS evaluates it: false when s is NaN. -/
def jge (s : JNum) (c : ℚ) : Bool :=
  match s with
  | .fin a => c ≤ a
  | .nan => false

/-- A possibly-missing, possibly wrongly-typed string-valued field. -/
inductive JField (α : Type) where
  | absent : JField α
  | val : α → JField α
  | bad : JField α
deriving DecidableEq, Repr

/-- JS truthiness of a string-valued field: undefined and the empty string
are falsy, any other string and any non-string present value are truthy. -/
def truthyF : JField String → Bool
  | .absent => false
  | .val s => !(s == "")
  | .bad => true

/-- JS truthiness of a numeric field: undefined and 0 are falsy. -/
def truthyQ : Option ℚ → Bool
  | none => false
  | some q => q ≠ 0

/-- ASCII lower-casing, the fragment of toLowerCase the data exercises. -/
def toLowerStr (s : String) : String :=
  ⟨s.data.map Char.toLower⟩

/-- Whether the list l starts with the list p. -/
def listStartsWith : List Char → List Char → Bool
  | [], _ => true
  | p :: ps, l =>
      match l with
      | c :: cs => p = c && listStartsWith ps cs
      | [] => false

/-- Whether sub occurs contiguously inside hay (JS String.includes). -/
def containsSub (hay sub : List Char) : Bool :=
  match hay with
  | [] => sub.isEmpty
  | _ :: t => listStartsWith sub hay || containsSub t sub

/-- JS a.includes(b). -/
def strIncludes (a b : String) : Bool :=
  containsSub a.data b.data

/-- The inner loop of calculateSpecializationMatch: scan the candidate
specializations for one required service, stopping at the first substring
match in either direction; a non-string entry throws when reached. -/
def specLoop (service : String) : List (JField String) → Except String Bool
  | [] => .ok false
  | .val sp :: rest =>
      if strIncludes (toLowerStr service) (toLowerStr sp)
          || strIncludes (toLowerStr sp) (toLowerStr service) then .ok true
      else specLoop service rest
  | _ :: _ => .error "toLowerCase is not a function"

/-- The outer loop of calculateSpecializationMatch: count required services
that match some specialization; a non-string required entry throws. -/
def countSpecMatches : List (JField String) → List (JField String) → Except String ℕ
  | [], _ => .ok 0
  | .val sv :: rest, specs => do
      let b ← specLoop sv specs
      let n ← countSpecMatches rest specs
      .ok (n + (if b then 1 else 0))
  | _ :: _, _ => .error "toLowerCase is not a function"

/-- CPAMatchingEngine.calculateSpecializationMatch.  A missing side scores
0; a present non-array value is wrapped in a one-element array by the
Array.isArray test, hence modelled as the one-element list [bad]. -/
def calculateSpecializationMatch
    (required specs : JField (List (JField String))) : Except String ℚ :=
  match required, specs with
  | .absent, _ => .ok 0
  | _, .absent => .ok 0
  | r, s =>
      let reqList := match r with | .val l => l | _ => [.bad]
      let avList := match s with | .val l => l | _ => [.bad]
      if reqList.length = 0 then .ok 0
      else do
        let m ← countSpecMatches reqList avList
        .ok ((m : ℚ) / (reqList.length : ℚ))

/-- CPAMatchingEngine.calculateLocationMatch. -/
def calculateLocationMatch (clientLocation cpaProvince : JField String)
    (cpaRemote clientRemoteOk : Bool) : Except String ℚ :=
  if cpaRemote && clientRemoteOk then .ok 1
  else
    let rest : Except String ℚ :=
      .ok (if cpaRemote || clientRemoteOk then 7/10 else 3/10)
    if truthyF clientLocation && truthyF cpaProvince then
      match clientLocation, cpaProvince with
      | .val cl, .val pr =>
          if strIncludes (toLowerStr cl) (toLowerStr pr) then .ok (9/10) else rest
      | _, _ => .error "toLowerCase is not a function"
    else rest

/-- CPAMatchingEngine.calculateBudgetAlignment.  Presence of each bound is
a JS truthiness test, so a bound equal to 0 counts as missing.  When the
two ranges overlap and both are degenerate points, the source computes
0/0, which is NaN. -/
def calculateBudgetAlignment (clientMinBudget clientMaxBudget cpaMinRate cpaMaxRate :
    Option ℚ) : JNum :=
  if truthyQ clientMinBudget && truthyQ clientMaxBudget
      && truthyQ cpaMinRate && truthyQ cpaMaxRate then
    let a := clientMinBudget.getD 0
    let b := clientMaxBudget.getD 0
    let c := cpaMinRate.getD 0
    let d := cpaMaxRate.getD 0
    let overlapStart := max a c
    let overlapEnd := min b d
    if overlapStart ≤ overlapEnd then
      let overlapSize := overlapEnd - overlapStart
      let clientRange := b - a
      let cpaRange := d - c
      let avgRange := (clientRange + cpaRange) / 2
      if avgRange = 0 then .nan else .fin (min 1 (overlapSize / avgRange))
    else
      let dist := min |b - c| |d - a|
      .fin (max 0 (1 - dist / b))
  else .fin (1/2)

/-- The fixed list of compatible communication-style pairs. -/
def compatiblePairs : List (String × String) :=
  [("formal", "professional"), ("casual", "friendly"),
   ("direct", "efficient"), ("collaborative", "consultative")]

/-- CPAMatchingEngine.calculateCommunicationMatch. -/
def calculateCommunicationMatch (clientPreference cpaStyle : JField String) :
    Except String ℚ :=
  if !truthyF clientPreference || !truthyF cpaStyle then .ok (7/10)
  else
    match clientPreference, cpaStyle with
    | .val p, .val s =>
        let pl := toLowerStr p
        let sl := toLowerStr s
        if pl = sl then .ok 1
        else if compatiblePairs.any (fun pr =>
            (strIncludes pl pr.1 && strIncludes sl pr.2)
            || (strIncludes pl pr.2 && strIncludes sl pr.1)) then .ok (8/10)
        else .ok (1/2)
    | _, _ => .error "toLowerCase is not a function"

/-- The sizeMap table of calculateFirmSizeMatch. -/
def sizeMapLookup (b : String) : Option (List String) :=
  if b = "startup" then some ["solo", "small"]
  else if b = "small" then some ["solo", "small", "medium"]
  else if b = "medium" then some ["small", "medium", "large"]
  else if b = "large" then some ["medium", "large", "big4"]
  else if b = "enterprise" then some ["large", "big4"]
  else none

/-- CPAMatchingEngine.calculateFirmSizeMatch. -/
def calculateFirmSizeMatch (businessSize firmSize : JField String) :
    Except String ℚ :=
  if !truthyF businessSize || !truthyF firmSize then .ok (7/10)
  else
    match businessSize, firmSize with
    | .val b, .val f =>
        let bl := toLowerStr b
        let fl := toLowerStr f
        match sizeMapLookup bl with
        | some sizes => if sizes.any (fun sz => strIncludes fl sz) then .ok 1 else .ok (2/5)
        | none => .ok (2/5)
    | _, _ => .error "toLowerCase is not a function"

/-- CPAMatchingEngine.calculateUrgencyMatch.  The experience default
cpaExperience or-else 5 is a truthiness fallback, so 0 years also maps
to 5. -/
def calculateUrgencyMatch (clientUrgency : JField String) (cpaExperience : Option ℚ) :
    Except String ℚ :=
  if !truthyF clientUrgency then .ok (4/5)
  else
    match clientUrgency with
    | .val u =>
        let ul := toLowerStr u
        let e : ℚ := match cpaExperience with
          | some q => if q = 0 then 5 else q
          | none => 5
        if strIncludes ul "immediate" || strIncludes ul "urgent" then
          .ok (if 10 ≤ e then 1 else if 5 ≤ e then 4/5 else 3/5)
        else if strIncludes ul "flexible" || strIncludes ul "planning" then .ok (9/10)
        else .ok (4/5)
    | _ => .error "toLowerCase is not a function"

/-- The client requirement profile, with the fields calculateMatchScore
reads. -/
structure ClientProfile where
  industry : JField String := .absent
  required_services : JField (List (JField String)) := .absent
  location_preference : JField String := .absent
  remote_acceptable : Bool := false
  budget_range_min : Option ℚ := none
  budget_range_max : Option ℚ := none
  preferred_communication : JField String := .absent
  business_size : JField String := .absent
  urgency_level : JField String := .absent
deriving DecidableEq, Repr

/-- The candidate CPA profile, with the fields calculateMatchScore and
findTopMatches read. -/
structure CPAProfile where
  cpa_id : ℕ := 0
  specializations : JField (List (JField String)) := .absent
  province : JField String := .absent
  remote_services : Bool := false
  hourly_rate_min : Option ℚ := none
  hourly_rate_max : Option ℚ := none
  communication_style : JField String := .absent
  firm_size : JField String := .absent
  years_experience : Option ℚ := none
  verification_status : JField String := .absent
  is_active : Bool := false
deriving DecidableEq, Repr

/-- The six sub-scores reported in match_factors. -/
structure MatchFactors where
  specialization_score : ℚ
  location_score : ℚ
  budget_score : JNum
  communication_score : ℚ
  firm_size_score : ℚ
  urgency_score : ℚ
deriving DecidableEq, Repr

/-- The matcher output: score, factor breakdown, recommendation label.
match_factors is none on the error path (the source returns an empty
object there). -/
structure MatchResult where
  match_score : JNum
  match_factors : Option MatchFactors
  recommendation_level : String
deriving DecidableEq, Repr

/-- CPAMatchingEngine.getRecommendationLevel. -/
def getRecommendationLevel (score : JNum) : String :=
  if jge score 90 then "Excellent Match"
  else if jge score 80 then "Very Good Match"
  else if jge score 70 then "Good Match"
  else if jge score 60 then "Fair Match"
  else "Poor Match"

/-- The matching weights of CPAMatchingEngine. -/
def wSpecialization : ℚ := 35/100
def wLocation : ℚ := 20/100
def wBudget : ℚ := 15/100
def wCommunication : ℚ := 12/100
def wFirmSize : ℚ := 10/100
def wUrgency : ℚ := 8/100

/-- The body of the try block of calculateMatchScore: an error raised by
any sub-score aborts the whole computation (to be caught by the caller). -/
def scoreTryBlock (client : ClientProfile) (cpa : CPAProfile) :
    Except String MatchResult := do
  let s ← calculateSpecializationMatch client.required_services cpa.specializations
  let l ← calculateLocationMatch client.location_preference cpa.province
    cpa.remote_services client.remote_acceptable
  let b := calculateBudgetAlignment client.budget_range_min client.budget_range_max
    cpa.hourly_rate_min cpa.hourly_rate_max
  let c ← calculateCommunicationMatch client.preferred_communication cpa.communication_style
  let f ← calculateFirmSizeMatch client.business_size cpa.firm_size
  let u ← calculateUrgencyMatch client.urgency_level cpa.years_experience
  let total := jadd (jadd (jadd (jadd (jadd (jadd (.fin 0)
    (.fin (s * wSpecialization))) (.fin (l * wLocation))) (jmulC b wBudget))
    (.fin (c * wCommunication))) (.fin (f * wFirmSize))) (.fin (u * wUrgency))
  let finalScore := jround (jmulC total 100)
  .ok { match_score := finalScore,
        match_factors := some ⟨s, l, b, c, f, u⟩,
        recommendation_level := getRecommendationLevel finalScore }

/-- CPAMatchingEngine.calculateMatchScore: the try block with its catch
clause, which maps any thrown error to score 0 and the Error label. -/
def calculateMatchScore (client : ClientProfile) (cpa : CPAProfile) : MatchResult :=
  match scoreTryBlock client cpa with
  | .ok r => r
  | .error _ =>
      { match_score := .fin 0, match_factors := none, recommendation_level := "Error" }

/-- One entry of the list findTopMatches returns. -/
structure MatchEntry where
  cpa_id : ℕ
  cpa_profile : CPAProfile
  result : MatchResult
deriving DecidableEq, Repr

/-- The eligibility filter of findTopMatches: strict equality of
verification_status with the string verified, and a truthy is_active. -/
def eligibleCPA (c : CPAProfile) : Bool :=
  c.verification_status = JField.val "verified" && c.is_active

/-- The match list findTopMatches builds before sorting: eligible
candidates in input order, each scored independently. -/
def scoredMatches (client : ClientProfile) (cpas : List CPAProfile) : List MatchEntry :=
  (cpas.filter eligibleCPA).map (fun c => ⟨c.cpa_id, c, calculateMatchScore client c⟩)

/-- The sort comparator (a, b) => b.match_score - a.match_score, read as
the predicate "a may precede b" (comparator value at most 0).  A NaN
comparator value is treated as 0 by the JS sort. -/
def cmpLe (a b : MatchEntry) : Bool :=
  match a.result.match_score, b.result.match_score with
  | .fin x, .fin y => y ≤ x
  | _, _ => true

/-- Stable insertion: x is placed before the first element it may precede,
hence after every earlier element with a strictly larger score and before
every later element with an equal score. -/
def insertEntry (x : MatchEntry) : List MatchEntry → List MatchEntry
  | [] => [x]
  | y :: ys => if cmpLe x y then x :: y :: ys else y :: insertEntry x ys

/-- The stable sort of the match list (the ES standard requires
Array.prototype.sort to be stable, and for a consistent comparator every
stable sort produces the same output). -/
def sortMatches : List MatchEntry → List MatchEntry
  | [] => []
  | x :: xs => insertEntry x (sortMatches xs)

/-- CPAMatchingEngine.findTopMatches: filter, score, sort descending by
match_score, truncate to the first limit entries. -/
def findTopMatches (client : ClientProfile) (cpas : List CPAProfile) (limit : ℕ) :
    List MatchEntry :=
  (sortMatches (scoredMatches client cpas)).take limit

/-!
The name-identity hash.  server.js normalizes a name and province into
lower-cased, letter-only form joined by a colon and applies the Node
crypto SHA-256 digest in hex.  SHA-256 is embedded below in full over
byte lists (naturals below 256), with 32-bit words as naturals reduced
modulo 2 to the 32.
-/

/-- 2 to the 32, the word modulus. -/
def M32 : ℕ := 4294967296

/-- Addition modulo 2 to the 32. -/
def add32 (a b : ℕ) : ℕ := (a + b) % M32

/-- Right rotation of a 32-bit word. -/
def rotr32 (x n : ℕ) : ℕ := ((x >>> n) ||| (x <<< (32 - n))) % M32

/-- Bitwise complement of a 32-bit word. -/
def not32 (x : ℕ) : ℕ := x ^^^ 4294967295

/-- SHA-256 choice function. -/
def chWord (x y z : ℕ) : ℕ := (x &&& y) ^^^ (not32 x &&& z)

/-- SHA-256 majority function. -/
def majWord (x y z : ℕ) : ℕ := (x &&& y) ^^^ (x &&& z) ^^^ (y &&& z)

/-- SHA-256 big sigma 0. -/
def bSig0 (x : ℕ) : ℕ := rotr32 x 2 ^^^ rotr32 x 13 ^^^ rotr32 x 22

/-- SHA-256 big sigma 1. -/
def bSig1 (x : ℕ) : ℕ := rotr32 x 6 ^^^ rotr32 x 11 ^^^ rotr32 x 25

/-- SHA-256 small sigma 0. -/
def sSig0 (x : ℕ) : ℕ := rotr32 x 7 ^^^ rotr32 x 18 ^^^ (x >>> 3)

/-- SHA-256 small sigma 1. -/
def sSig1 (x : ℕ) : ℕ := rotr32 x 17 ^^^ rotr32 x 19 ^^^ (x >>> 10)

/-- The 64 SHA-256 round constants (FIPS 180-4 section 4.2.2), written in
decimal. -/
def shaK : List ℕ :=
  [1116352408, 1899447441, 3049323471, 3921009573,
   961987163, 1508970993, 2453635748, 2870763221,
   3624381080, 310598401, 607225278, 1426881987,
   1925078388, 2162078206, 2614888103, 3248222580,
   3835390401, 4022224774, 264347078, 604807628,
   770255983, 1249150122, 1555081692, 1996064986,
   2554220882, 2821834349, 2952996808, 3210313671,
   3336571891, 3584528711, 113926993, 338241895,
   666307205, 773529912, 1294757372, 1396182291,
   1695183700, 1986661051, 2177026350, 2456956037,
   2730485921, 2820302411, 3259730800, 3345764771,
   3516065817, 3600352804, 4094571909, 275423344,
   430227734, 506948616, 659060556, 883997877,
   958139571, 1322822218, 1537002063, 1747873779,
   1955562222, 2024104815, 2227730452, 2361852424,
   2428436474, 2756734187, 3204031479, 3329325298]

/-- The SHA-256 initial hash state (FIPS 180-4 section 5.3.3), written in
decimal. -/
def shaH0 : List ℕ :=
  [1779033703, 3144134277, 1013904242, 2773480762,
   1359893119, 2600822924, 528734635, 1541459225]

/-- One message-schedule extension step on the reversed schedule. -/
def scheduleStep (rw : List ℕ) : List ℕ :=
  add32 (add32 (sSig1 (rw.getD 1 0)) (rw.getD 6 0))
        (add32 (sSig0 (rw.getD 14 0)) (rw.getD 15 0)) :: rw

/-- Iterate the schedule extension n times. -/
def buildSchedule : ℕ → List ℕ → List ℕ
  | 0, rw => rw
  | n + 1, rw => buildSchedule n (scheduleStep rw)

/-- Extend 16 words to the 64-word SHA-256 message schedule. -/
def fullSchedule (w16 : List ℕ) : List ℕ :=
  (buildSchedule 48 w16.reverse).reverse

/-- One SHA-256 compression round on the 8-word working state. -/
def compressStep (st : List ℕ) (wk : ℕ × ℕ) : List ℕ :=
  match st with
  | [a, b, c, d, e, f, g, h] =>
      let t1 := add32 (add32 (add32 h (bSig1 e)) (add32 (chWord e f g) wk.2)) wk.1
      let t2 := add32 (bSig0 a) (majWord a b c)
      [add32 t1 t2, a, b, c, add32 d t1, e, f, g]
  | other => other

/-- Pack big-endian bytes into 32-bit words. -/
def packWords : List ℕ → List ℕ
  | b1 :: b2 :: b3 :: b4 :: rest => (((b1 * 256 + b2) * 256 + b3) * 256 + b4) :: packWords rest
  | _ => []

/-- One 64-byte block of SHA-256. -/
def compressBlock (h : List ℕ) (block : List ℕ) : List ℕ :=
  let ws := fullSchedule (packWords block)
  let st := (ws.zip shaK).foldl compressStep h
  (h.zip st).map (fun p => add32 p.1 p.2)

/-- A natural as k big-endian bytes. -/
def toBytesBE : ℕ → ℕ → List ℕ
  | 0, _ => []
  | k + 1, n => toBytesBE k (n >>> 8) ++ [n % 256]

/-- SHA-256 padding: a 0x80 byte, zeros, and the 64-bit big-endian bit
length, to a multiple of 64 bytes. -/
def padMessage (msg : List ℕ) : List ℕ :=
  let l := msg.length
  let zeros := (64 - (l + 9) % 64) % 64
  msg ++ 0x80 :: List.replicate zeros 0 ++ toBytesBE 8 (8 * l)

/-- Split into 64-byte blocks, driven by a fuel argument. -/
def chunksGo : ℕ → List ℕ → List (List ℕ)
  | 0, _ => []
  | fuel + 1, l => if l.isEmpty then [] else l.take 64 :: chunksGo fuel (l.drop 64)

/-- The 64-byte blocks of a byte list. -/
def chunks64 (l : List ℕ) : List (List ℕ) := chunksGo l.length l

/-- The SHA-256 digest of a byte list, as 8 words. -/
def sha256words (msg : List ℕ) : List ℕ :=
  (chunks64 (padMessage msg)).foldl compressBlock shaH0

/-- A hex digit character. -/
def hexDigit (n : ℕ) : Char := "0123456789abcdef".data.getD n 'x'

/-- The lowercase hex encoding of a digest word. -/
def wordHex (w : ℕ) : List Char :=
  (toBytesBE 4 w).foldr (fun b acc => hexDigit (b / 16) :: hexDigit (b % 16) :: acc) []

/-- The SHA-256 digest of a byte list, as the 64-character hex string the
Node crypto digest(hex) call returns. -/
def sha256hex (msg : List ℕ) : String :=
  ⟨(sha256words msg).foldr (fun w acc => wordHex w ++ acc) []⟩

/-- UTF-8 encoding of one character. -/
def utf8Char (c : Char) : List ℕ :=
  let n := c.toNat
  if n < 0x80 then [n]
  else if n < 0x800 then [0xc0 + n / 64, 0x80 + n % 64]
  else if n < 0x10000 then [0xe0 + n / 4096, 0x80 + (n / 64) % 64, 0x80 + n % 64]
  else [0xf0 + n / 262144, 0x80 + (n / 4096) % 64, 0x80 + (n / 64) % 64, 0x80 + n % 64]

/-- UTF-8 encoding of a string, as crypto.update reads it. -/
def utf8Bytes (s : String) : List ℕ :=
  s.data.foldr (fun c acc => utf8Char c ++ acc) []

/-- The name normalization of generateNameHash: lower-case, then delete
every character that is not a lowercase letter. -/
def stripToLetters (s : String) : String :=
  ⟨(toLowerStr s).data.filter (fun c => decide ('a' ≤ c) && decide (c ≤ 'z'))⟩

/-- The string generateNameHash digests: normalized name, a colon, and
the lower-cased province. -/
def hashInputStr (name province : String) : String :=
  stripToLetters name ++ ":" ++ toLowerStr province

/-- generateNameHash from server.js: the hex SHA-256 of the normalized
name:province string. -/
def generateNameHash (name province : String) : String :=
  sha256hex (utf8Bytes (hashInputStr name province))

/-- Two strings that the digest pipeline maps to the same key even though
they differ: what a successful attack on SHA-256 would exhibit. -/
def NameKeyCollision (i1 i2 : String) : Prop :=
  i1 ≠ i2 ∧ sha256hex (utf8Bytes i1) = sha256hex (utf8Bytes i2)

/-!
The dedup insert step shared by the scrapers: hash the full name with the
province, skip when a row with that hash exists, insert otherwise.  The
persistent store is modelled as the list of persisted name hashes, in
insertion order.
-/

/-- Whitespace as the trim and split regexes of the scrapers see it. -/
def isWsChar (c : Char) : Bool :=
  c = ' ' || c = '\t' || c = '\n' || c = '\r'

/-- String.prototype.trim on the ASCII whitespace the data contains. -/
def trimStr (s : String) : String :=
  ⟨((s.data.dropWhile isWsChar).reverse.dropWhile isWsChar).reverse⟩

/-- One parsed person record, as produced by the directory parsers. -/
structure ScrapedRecord where
  firstName : String := ""
  lastName : String := ""
  fullName : String := ""
  city : String := ""
  designation : String := ""
  firmName : String := ""
deriving DecidableEq, Repr

/-- The name the insert loop hashes: record.fullName, or the
first-plus-last fallback when fullName is falsy. -/
def recordFullName (r : ScrapedRecord) : String :=
  if r.fullName == "" then trimStr (r.firstName ++ " " ++ r.lastName) else r.fullName

/-- The per-record dedup check-then-insert of the scrape loops: SELECT by
name_hash, skip if a row exists, INSERT otherwise.  Returns the new store
and whether an insert happened. -/
def insertRecord (province : String) (db : List String) (r : ScrapedRecord) :
    List String × Bool :=
  let h := generateNameHash (recordFullName r) province
  if h ∈ db then (db, false) else (db ++ [h], true)

/-- The insert loop over the parsed records of one response (or of a whole
run, by concatenation): returns the new store and the inserted and skipped
counts. -/
def insertAll (province : String) (db : List String) :
    List ScrapedRecord → List String × ℕ × ℕ
  | [] => (db, 0, 0)
  | r :: rs =>
      let step := insertRecord province db r
      let rest := insertAll province step.1 rs
      (rest.1, rest.2.1 + (if step.2 then 1 else 0), rest.2.2 + (if step.2 then 0 else 1))

/-!
The CPABC grid parser, at the level of table rows.  A row is its class
list, its th-cell count and its td-cell texts (cheerio text(), trimmed, as
in the source).  The designation regex of the source demands a comma,
optional whitespace, the letters cpa in any case, and then only
whitespace, commas and letters up to the end of the cell.
-/

/-- An HTML table row as the parser sees it. -/
structure GridRow where
  classes : List String := []
  thCount : ℕ := 0
  cells : List String := []
deriving DecidableEq, Repr

/-- A character the designation regex accepts after the cpa stem. -/
def desigTailChar (c : Char) : Bool :=
  isWsChar c || c = ',' || (decide ('A' ≤ c) && decide (c ≤ 'Z'))
    || (decide ('a' ≤ c) && decide (c ≤ 'z'))

/-- Whether the text after a comma matches optional whitespace, the
letters cpa in any case, and designation tail characters to the end. -/
def cpaTailMatch (l : List Char) : Bool :=
  match l.dropWhile isWsChar with
  | c1 :: c2 :: c3 :: rest =>
      Char.toLower c1 = 'c' && Char.toLower c2 = 'p' && Char.toLower c3 = 'a'
        && rest.all desigTailChar
  | _ => false

/-- The leftmost match of the designation regex: the text before the
matched comma and the captured designation (from the cpa stem to the
end), or none when the regex does not match. -/
def findDesigSplit : List Char → Option (List Char × List Char)
  | [] => none
  | c :: rest =>
      if c = ',' && cpaTailMatch rest then some ([], rest.dropWhile isWsChar)
      else
        match findDesigSplit rest with
        | some (pre, cap) => some (c :: pre, cap)
        | none => none

/-- Split a character list at every comma (String.prototype.split with a
comma separator). -/
def splitOnComma : List Char → List (List Char)
  | [] => [[]]
  | c :: rest =>
      match splitOnComma rest with
      | p :: ps => if c = ',' then [] :: p :: ps else (c :: p) :: ps
      | [] => [[c]]

/-- Split on runs of whitespace, as the split regex with one-or-more
whitespace does: a leading or trailing run contributes an empty part. -/
def splitWsGo : List Char → List Char → Bool → List (List Char)
  | [], acc, _ => [acc.reverse]
  | c :: rest, acc, inWs =>
      if isWsChar c then
        if inWs then splitWsGo rest [] true
        else acc.reverse :: splitWsGo rest [] true
      else splitWsGo rest (c :: acc) false

/-- String.prototype.split on the one-or-more-whitespace regex. -/
def splitWs (l : List Char) : List (List Char) := splitWsGo l [] false

/-- Array.prototype.join with a single space. -/
def joinSpace : List (List Char) → List Char
  | [] => []
  | [p] => p
  | p :: ps => p ++ ' ' :: joinSpace ps

/-- The name split of the CPABC parser: on a comma, parts 0 and 1 are last
and first name; otherwise the first whitespace-separated word is the first
name and the rest joined is the last name. -/
def parseNameClean (nameClean : String) : String × String :=
  if nameClean.data.contains ',' then
    let parts := (splitOnComma nameClean.data).map (fun p => trimStr ⟨p⟩)
    (parts.getD 1 "", parts.getD 0 "")
  else
    let parts := splitWs nameClean.data
    (⟨parts.getD 0 []⟩, ⟨joinSpace (parts.drop 1)⟩)

/-- Strip a trailing parenthesized two-uppercase-letter province tag from
a city cell, then trim (the replace-then-trim of the source). -/
def stripProvTag (s : String) : String :=
  match s.data.reverse.dropWhile isWsChar with
  | ')' :: u2 :: u1 :: '(' :: rest =>
      if (decide ('A' ≤ u1) && decide (u1 ≤ 'Z'))
          && (decide ('A' ≤ u2) && decide (u2 ≤ 'Z')) then trimStr ⟨rest.reverse⟩
      else trimStr s
  | _ => trimStr s

/-- CPABCScraper._parseResults on one row: skip header, pager, no-records
and th rows and rows with fewer than four cells or an implausible name
cell; otherwise split column 0 into name and designation, column 3 into
the city, and column 6 into the firm. -/
def bcParseRow (row : GridRow) : Option ScrapedRecord :=
  if row.classes.contains "rgHeader" || row.classes.contains "rgPager"
      || row.classes.contains "rgNoRecords" then none
  else if 0 < row.thCount then none
  else if row.cells.length < 4 then none
  else
    let c0 := row.cells.getD 0 ""
    if c0 == "" || c0.data.length < 2 then none
    else
      let nd : String × String :=
        match findDesigSplit c0.data with
        | some (pre, cap) => (trimStr ⟨pre⟩, trimStr ⟨cap⟩)
        | none => (c0, "CPA")
      let names := parseNameClean nd.1
      let full0 := trimStr (names.1 ++ " " ++ names.2)
      some { firstName := names.1, lastName := names.2,
             fullName := if full0 == "" then nd.1 else full0,
             city := stripProvTag (row.cells.getD 3 ""),
             designation := nd.2,
             firmName := if 6 < row.cells.length then row.cells.getD 6 "" else "" }

/-- CPABCScraper._parseResults over a table: the parsed records of the
rows that are not skipped. -/
def bcParseResults (rows : List GridRow) : List ScrapedRecord :=
  rows.filterMap bcParseRow

/-- The fixed sample table of the grid-parser claim: a header row, two
data rows, and a no-records row. -/
def c6SampleTable : List GridRow :=
  [ { classes := ["rgHeader"], thCount := 8,
      cells := ["Name", "Member Status", "Public Notice", "City",
                "Licence Category", "Licence Status", "Firm", ""] },
    { classes := ["rgRow"], thCount := 0,
      cells := ["Smith, John CPA, CA", "Member", "", "Vancouver (BC)",
                "", "", "Smith LLP", ""] },
    { classes := ["rgAltRow"], thCount := 0,
      cells := ["Garcia, Maria, CPA, CMA", "Member", "", "Victoria (BC)",
                "", "", "", ""] },
    { classes := ["rgNoRecords"], thCount := 0,
      cells := ["No records to display"] } ]

/-!
The CPA Alberta scraper: a form POST per (last name, first name) pair,
with four response shapes (refine-your-search, no-results, a multi-result
table, a single detail page).  The HTTP layer is abstracted as a response
environment indexed by the submitted last and first name; everything after
the response is modelled from the source.
-/

/-- A character the word-boundary assertion counts as a word character. -/
def isWordChar (c : Char) : Bool :=
  (decide ('A' ≤ c) && decide (c ≤ 'Z')) || (decide ('a' ≤ c) && decide (c ≤ 'z'))
    || (decide ('0' ≤ c) && decide (c ≤ '9')) || c = '_'

/-- The designation words of the Alberta name-cleaning regex, in
alternation order. -/
def albertaDesigWords : List String :=
  ["CPA", "CMA", "CA", "CGA", "FCPA", "FCMA", "FCA", "FCGA", "MBA", "PhD", "LPA"]

/-- Case-insensitive literal match: the remainder of l after w, when l
starts with w up to case. -/
def matchWordCI : List Char → List Char → Option (List Char)
  | [], l => some l
  | _ :: _, [] => none
  | w :: ws, c :: cs =>
      if Char.toLower w = Char.toLower c then matchWordCI ws cs else none

/-- Try the designation alternation at the head of l, with the trailing
word-boundary assertion; the first alternative in order wins. -/
def tryDesigWords (l : List Char) : List String → Option (List Char)
  | [] => none
  | w :: ws =>
      match matchWordCI w.data l with
      | some rem =>
          match rem with
          | [] => some rem
          | c :: _ => if isWordChar c then tryDesigWords l ws else some rem
      | none => tryDesigWords l ws

/-- One attempt of the Alberta regex (optional comma, optional whitespace,
a designation word, a word boundary) at the head of l. -/
def tryDesigAt (l : List Char) : Option (List Char) :=
  let l1 := match l with
    | ',' :: rest => rest
    | _ => l
  tryDesigWords (l1.dropWhile isWsChar) albertaDesigWords

/-- The global replace of the Alberta regex: scan left to right, delete
every match, keep everything else. -/
def desigReplaceGo : ℕ → List Char → List Char
  | 0, l => l
  | _ + 1, [] => []
  | fuel + 1, c :: rest =>
      match tryDesigAt (c :: rest) with
      | some rem => desigReplaceGo fuel rem
      | none => c :: desigReplaceGo fuel rest

/-- The designation-stripping step of CPAAlbertaScraper._parseName. -/
def albertaStripDesig (s : String) : String :=
  trimStr ⟨desigReplaceGo s.data.length s.data⟩

/-- The record _parseName builds: names from the cleaned text, the raw
text as the full name, and the name hash over the raw text with AB. -/
structure AlbertaRecord where
  firstName : String
  lastName : String
  fullName : String
  city : String
  nameHash : String
deriving DecidableEq, Repr

/-- CPAAlbertaScraper._parseName. -/
def albertaParseName (nameText city : String) : AlbertaRecord :=
  let cleanName := albertaStripDesig nameText
  let names :=
    if cleanName.data.contains ',' then
      let parts := (splitOnComma cleanName.data).map (fun p => trimStr ⟨p⟩)
      (parts.getD 1 "", parts.getD 0 "")
    else
      let parts := splitWs cleanName.data
      ((⟨parts.getD 0 []⟩ : String), (⟨joinSpace (parts.drop 1)⟩ : String))
  { firstName := names.1, lastName := names.2, fullName := nameText,
    city := city, nameHash := generateNameHash nameText "AB" }

/-- CPAAlbertaScraper._insertRecord: dedup by the precomputed hash. -/
def albertaInsert (db : List String) (r : AlbertaRecord) : List String × Bool :=
  if r.nameHash ∈ db then (db, false) else (db ++ [r.nameHash], true)

/-- The four response shapes of the Alberta search endpoint. -/
inductive AlbertaResp where
  | refine : AlbertaResp
  | noResults : AlbertaResp
  | multi : List (List String) → AlbertaResp
  | detail : String → String → AlbertaResp
deriving DecidableEq, Repr

/-- The outcome of one _searchAndParse call. -/
structure SearchOutcome where
  db : List String
  found : ℕ
  inserted : ℕ
  skipped : ℕ
  tooMany : Bool
deriving DecidableEq, Repr

/-- The row loop of the multi-result branch: skip short rows and short
names, parse and insert the rest. -/
def albertaRowLoop (db : List String) : List (List String) →
    List String × ℕ × ℕ × ℕ
  | [] => (db, 0, 0, 0)
  | cells :: rows =>
      if cells.length < 2 then albertaRowLoop db rows
      else
        let nameText := cells.getD 0 ""
        let city := cells.getD 1 ""
        if nameText == "" || nameText.data.length < 3 then albertaRowLoop db rows
        else
          let ins := albertaInsert db (albertaParseName nameText city)
          let rest := albertaRowLoop ins.1 rows
          (rest.1, rest.2.1 + 1, rest.2.2.1 + (if ins.2 then 1 else 0),
           rest.2.2.2 + (if ins.2 then 0 else 1))

/-- CPAAlbertaScraper._searchAndParse on the response the environment
returns for the submitted names: the refine heading short-circuits with
the tooMany flag, no-results returns zero counts, the multi-result table
is walked row by row past its header row, and a detail page with a truthy
member name inserts that one member. -/
def searchAndParse (db : List String) (resp : AlbertaResp) : SearchOutcome :=
  match resp with
  | .refine => ⟨db, 0, 0, 0, true⟩
  | .noResults => ⟨db, 0, 0, 0, false⟩
  | .multi rows =>
      let r := albertaRowLoop db (rows.drop 1)
      ⟨r.1, r.2.1, r.2.2.1, r.2.2.2, false⟩
  | .detail memberName businessCity =>
      if memberName == "" then ⟨db, 0, 0, 0, false⟩
      else
        let ins := albertaInsert db (albertaParseName memberName businessCity)
        ⟨ins.1, 1, if ins.2 then 1 else 0, if ins.2 then 0 else 1, false⟩

/-- The A to Z first-name initials of the narrowing loop. -/
def albertaInitials : List Char := "ABCDEFGHIJKLMNOPQRSTUVWXYZ".data

/-- The narrowing loop body: one sub-search per initial, accumulating the
found, inserted and skipped counts across all of them. -/
def albertaNarrowFold (env : String → String → AlbertaResp) (l : String)
    (db : List String) : List Char → List String × ℕ × ℕ × ℕ
  | [] => (db, 0, 0, 0)
  | i :: is =>
      let r := searchAndParse db (env l (String.singleton i))
      let rest := albertaNarrowFold env l r.db is
      (rest.1, r.found + rest.2.1, r.inserted + rest.2.2.1, r.skipped + rest.2.2.2)

/-- The Alberta scrape step for one last name: search with the last name
alone; on a refine-your-search response run the full A to Z narrowing
loop, otherwise keep the counts of the single search. -/
def albertaStep (env : String → String → AlbertaResp) (db : List String)
    (l : String) : List String × ℕ × ℕ × ℕ :=
  let r0 := searchAndParse db (env l "")
  if r0.tooMany then albertaNarrowFold env l r0.db albertaInitials
  else (r0.db, r0.found, r0.inserted, r0.skipped)

/-- The queries the step submits, in order: the plain last-name search,
then on refusal one narrowed search per initial. -/
def albertaStepQueries (env : String → String → AlbertaResp) (l : String) :
    List (String × String) :=
  if (searchAndParse [] (env l "")).tooMany then
    (l, "") :: albertaInitials.map (fun i => (l, String.singleton i))
  else [(l, "")]

/-- The per-initial counts of the narrowing loop, threading the store. -/
def albertaSubCounts (env : String → String → AlbertaResp) (l : String) :
    List String → List Char → List (ℕ × ℕ × ℕ)
  | _, [] => []
  | db, i :: is =>
      let r := searchAndParse db (env l (String.singleton i))
      (r.found, r.inserted, r.skipped) :: albertaSubCounts env l r.db is

/-- The whole Alberta enumeration over a last-name list. -/
def albertaScrape (env : String → String → AlbertaResp) (db : List String) :
    List String → List String × ℕ × ℕ × ℕ
  | [] => (db, 0, 0, 0)
  | l :: ls =>
      let r := albertaStep env db l
      let rest := albertaScrape env r.1 ls
      (rest.1, r.2.1 + rest.2.1, r.2.2.1 + rest.2.2.1, r.2.2.2 + rest.2.2.2)

/-!
The generic scrape loop of CPABCScraper.scrape (IMISDirectoryScraper is
structurally identical): a per-term try/catch, a consecutive-error
counter, session re-establishment at five consecutive errors whose own
failure is caught and logged, and a scrape-job row that goes from running
to exactly one terminal status.  Per-term outcomes and re-establishment
outcomes are injected, mirroring the network; the cookie and hidden-field
session blob is not modelled because no modelled observable depends on
it, only the counter logic does.
-/

/-- The injected outcome of one search term: a parsed record list, or a
thrown error. -/
inductive TermOutcome where
  | ok : List ScrapedRecord → TermOutcome
  | err : String → TermOutcome
deriving DecidableEq, Repr

/-- The loop state of one scrape run. -/
structure LoopState where
  db : List String
  found : ℕ
  inserted : ℕ
  skipped : ℕ
  consec : ℕ
  reAttempts : ℕ
deriving DecidableEq, Repr

/-- One iteration of the term loop: a successful term adds its records
through the dedup insert loop and resets the consecutive-error counter; a
failed term increments it, and at five or more the scraper attempts to
re-establish the session, resetting the counter only when that attempt
succeeds (a failed attempt is caught, logged and swallowed). -/
def termStep (province : String) (reEstOk : ℕ → Bool) (st : LoopState) :
    TermOutcome → LoopState
  | .ok records =>
      let r := insertAll province st.db records
      { st with
          db := r.1,
          found := st.found + records.length,
          inserted := st.inserted + r.2.1,
          skipped := st.skipped + r.2.2,
          consec := 0 }
  | .err _ =>
      let c := st.consec + 1
      if 5 ≤ c then
        if reEstOk st.reAttempts then
          { st with consec := 0, reAttempts := st.reAttempts + 1 }
        else { st with consec := c, reAttempts := st.reAttempts + 1 }
      else { st with consec := c }

/-- The full term loop. -/
def runTerms (province : String) (reEstOk : ℕ → Bool) (st : LoopState)
    (terms : List TermOutcome) : LoopState :=
  terms.foldl (termStep province reEstOk) st

/-- A scrape-job row status. -/
inductive JobStatus where
  | running : JobStatus
  | completed : ℕ → ℕ → ℕ → JobStatus
  | failedJob : String → JobStatus
deriving DecidableEq, Repr

/-- What one scrape run leaves behind: the terminal job row, the sequence
of statuses the row went through, and the final loop state. -/
structure ScrapeResult where
  job : JobStatus
  statusHistory : List JobStatus
  state : LoopState
deriving DecidableEq, Repr

/-- The initial loop state over a given store. -/
def initState (db : List String) : LoopState := ⟨db, 0, 0, 0, 0, 0⟩

/-- CPABCScraper.scrape: _startJob writes the running row; the try block
runs session setup (whose structural failures throw) and then the term
loop (which never throws); _completeJob or _failJob writes the single
terminal status. -/
def scrapeRun (province : String) (setup : Except String Unit)
    (terms : List TermOutcome) (reEstOk : ℕ → Bool) (db : List String) :
    ScrapeResult :=
  match setup with
  | .error m =>
      { job := .failedJob m, statusHistory := [.running, .failedJob m],
        state := initState db }
  | .ok _ =>
      let fin := runTerms province reEstOk (initState db) terms
      { job := .completed fin.found fin.inserted fin.skipped,
        statusHistory := [.running, .completed fin.found fin.inserted fin.skipped],
        state := fin }

/-!
Theorems.  Each claim of the specification is settled by one named
theorem below; shared helper lemmas come first.
-/

set_option maxRecDepth 100000

/-- The character data of an appended string. -/
theorem strData_append (a b : String) : (a ++ b).data = a.data ++ b.data := by
  cases a
  cases b
  rfl

/-- Strings with equal character data are equal. -/
theorem strOfData_inj {a b : String} (h : a.data = b.data) : a = b := by
  cases a
  cases b
  exact congrArg String.mk (by simpa using h)

/-- Fixing the name, distinct lower-cased provinces give distinct digest
inputs. -/
theorem hashInput_ne_of_province_ne (n : String) {p1 p2 : String}
    (h : toLowerStr p1 ≠ toLowerStr p2) : hashInputStr n p1 ≠ hashInputStr n p2 := by
  intro he
  apply h
  unfold hashInputStr at he
  have hd := congrArg String.data he
  rw [strData_append, strData_append, strData_append, strData_append] at hd
  exact strOfData_inj (List.append_cancel_left hd)

/-- C1 (corrected): the claim presents hash("John D. SMITH", "ON") and
hash("john smith", "ON") as equal, but normalization keeps the letter d
of the middle initial, so the two digested strings are johndsmith:on and
johnsmith:on and the keys differ. -/
theorem nameHash_middle_initial_counterexample :
    generateNameHash "John D. SMITH" "ON" ≠ generateNameHash "john smith" "ON" := by
  decide

/-- C1 (amended).  Names that agree after lower-casing and deleting every
character that is not a lowercase letter get the same key within a fixed
province; for a fixed name, provinces that differ after lower-casing give
distinct digest inputs, so equal keys would exhibit a SHA-256 collision;
concretely, a punctuation-and-casing-only variant collapses while the
ON and BC keys for one name differ. -/
theorem nameHash_normalization :
    (∀ n1 n2 p, stripToLetters n1 = stripToLetters n2 →
       generateNameHash n1 p = generateNameHash n2 p)
    ∧ (∀ n p1 p2, toLowerStr p1 ≠ toLowerStr p2 →
         hashInputStr n p1 ≠ hashInputStr n p2
         ∧ (generateNameHash n p1 = generateNameHash n p2 →
              NameKeyCollision (hashInputStr n p1) (hashInputStr n p2)))
    ∧ generateNameHash "John SMITH." "ON" = generateNameHash "john smith" "ON"
    ∧ generateNameHash "John Smith" "ON" ≠ generateNameHash "John Smith" "BC" := by
  refine ⟨?_, ?_, by decide, by decide⟩
  · intro n1 n2 p h
    unfold generateNameHash hashInputStr
    rw [h]
  · intro n p1 p2 h
    refine ⟨hashInput_ne_of_province_ne n h, ?_⟩
    intro hk
    exact ⟨hashInput_ne_of_province_ne n h, hk⟩

/-- C1 witness: the amended theorem applied at concrete names and
provinces, with both hypotheses discharged by computation. -/
theorem nameHash_normalization_witness :
    generateNameHash "John, SMITH!" "ON" = generateNameHash "john smith" "ON"
    ∧ hashInputStr "Ann Lee" "ON" ≠ hashInputStr "Ann Lee" "BC" :=
  ⟨nameHash_normalization.1 "John, SMITH!" "john smith" "ON" (by decide),
   (nameHash_normalization.2.1 "Ann Lee" "ON" "BC" (by decide)).1⟩

/-- C3 (confirmed): calculateBudgetAlignment computes the overlap formula
capped at one when the truthy ranges overlap, the distance penalty when
they do not, the neutral half when a bound is missing, and 10/55 on the
ranges 100-150 versus 140-200. -/
theorem budget_alignment_formula :
    (∀ a b c d : ℚ, a ≠ 0 → b ≠ 0 → c ≠ 0 → d ≠ 0 →
       max a c ≤ min b d → ((b - a) + (d - c)) / 2 ≠ 0 →
       calculateBudgetAlignment (some a) (some b) (some c) (some d)
         = .fin (min 1 ((min b d - max a c) / (((b - a) + (d - c)) / 2))))
    ∧ (∀ a b c d : ℚ, a ≠ 0 → b ≠ 0 → c ≠ 0 → d ≠ 0 →
       ¬ max a c ≤ min b d →
       calculateBudgetAlignment (some a) (some b) (some c) (some d)
         = .fin (max 0 (1 - min |b - c| |d - a| / b)))
    ∧ (∀ y z w, calculateBudgetAlignment none y z w = .fin (1/2))
    ∧ (∀ x z w, calculateBudgetAlignment x none z w = .fin (1/2))
    ∧ (∀ x y w, calculateBudgetAlignment x y none w = .fin (1/2))
    ∧ (∀ x y z, calculateBudgetAlignment x y z none = .fin (1/2))
    ∧ calculateBudgetAlignment (some 100) (some 150) (some 140) (some 200)
        = .fin (10/55) := by
  refine ⟨?_, ?_, ?_, ?_, ?_, ?_,
    by norm_num [calculateBudgetAlignment, truthyQ, max_def, min_def]⟩
  · intro a b c d ha hb hc hd hov havg
    simp [calculateBudgetAlignment, truthyQ, ha, hb, hc, hd, hov, havg]
  · intro a b c d ha hb hc hd hov
    simp [calculateBudgetAlignment, truthyQ, ha, hb, hc, hd, hov]
  · intro y z w
    simp [calculateBudgetAlignment, truthyQ]
  · intro x z w
    cases x <;> simp [calculateBudgetAlignment, truthyQ]
  · intro x y w
    cases x <;> cases y <;> simp [calculateBudgetAlignment, truthyQ]
  · intro x y z
    cases x <;> cases y <;> cases z <;> simp [calculateBudgetAlignment, truthyQ]

/-- C3 witness: the overlap branch of the theorem applied to the concrete
ranges of the claim, every hypothesis discharged by computation. -/
theorem budget_alignment_formula_witness :
    calculateBudgetAlignment (some 100) (some 150) (some 140) (some 200)
      = .fin (min 1 ((min (150:ℚ) 200 - max 100 140) / (((150 - 100) + (200 - 140)) / 2))) :=
  budget_alignment_formula.1 100 150 140 200 (by norm_num) (by norm_num)
    (by norm_num) (by norm_num) (by norm_num) (by norm_num)

/-- C10 (confirmed): a bound that is the number 0 makes the truthiness
guard fail, so the function returns the neutral half exactly as if that
bound were absent; in particular the client range 0-200 against candidate
rates 50-100 scores one half, not the overlap value. -/
theorem budget_zero_bound_neutral :
    (∀ x y z w, (x = some 0 ∨ y = some 0 ∨ z = some 0 ∨ w = some 0) →
       calculateBudgetAlignment x y z w = .fin (1/2))
    ∧ (∀ y z w, calculateBudgetAlignment (some 0) y z w
        = calculateBudgetAlignment none y z w)
    ∧ (∀ x z w, calculateBudgetAlignment x (some 0) z w
        = calculateBudgetAlignment x none z w)
    ∧ (∀ x y w, calculateBudgetAlignment x y (some 0) w
        = calculateBudgetAlignment x y none w)
    ∧ (∀ x y z, calculateBudgetAlignment x y z (some 0)
        = calculateBudgetAlignment x y z none)
    ∧ calculateBudgetAlignment (some 0) (some 200) (some 50) (some 100) = .fin (1/2)
    ∧ calculateBudgetAlignment (some 0) (some 200) (some 50) (some 100)
        ≠ .fin ((min (200:ℚ) 100 - max 0 50) / (((200 - 0) + (100 - 50)) / 2)) := by
  refine ⟨?_, ?_, ?_, ?_, ?_,
    by norm_num [calculateBudgetAlignment, truthyQ],
    by norm_num [calculateBudgetAlignment, truthyQ, max_def, min_def]⟩
  · intro x y z w h
    rcases h with h | h | h | h <;> subst h <;>
      simp [calculateBudgetAlignment, truthyQ]
  · intro y z w
    simp [calculateBudgetAlignment, truthyQ]
  · intro x z w
    cases x <;> simp [calculateBudgetAlignment, truthyQ]
  · intro x y w
    cases x <;> cases y <;> simp [calculateBudgetAlignment, truthyQ]
  · intro x y z
    cases x <;> cases y <;> cases z <;> simp [calculateBudgetAlignment, truthyQ]

/-- C10 witness: the zero-bound clause of the theorem applied to the
concrete client range 0-200 against candidate rates 50-100. -/
theorem budget_zero_bound_neutral_witness :
    calculateBudgetAlignment (some 0) (some 200) (some 50) (some 100) = .fin (1/2) :=
  budget_zero_bound_neutral.1 (some 0) (some 200) (some 50) (some 100) (Or.inl rfl)

/-- C2 counterexample: with every field present and numeric but a
negative client budget range, the distance penalty exceeds one and the
final match_score is 15000058, far outside 0 to 100. -/
theorem match_score_exceeds_100_counterexample :
    (calculateMatchScore
        { budget_range_min := some (-5), budget_range_max := some (-1) }
        { hourly_rate_min := some 1000000, hourly_rate_max := some 2000000 }).match_score
      = JNum.fin 15000058
    ∧ ¬ ((15000058 : ℚ) ≤ 100) := by
  refine ⟨?_, by norm_num⟩
  simp [calculateMatchScore, scoreTryBlock, calculateSpecializationMatch,
    calculateLocationMatch, calculateBudgetAlignment, calculateCommunicationMatch,
    calculateFirmSizeMatch, calculateUrgencyMatch, truthyF, truthyQ, jadd, jmulC, jround,
    wSpecialization, wLocation, wBudget, wCommunication, wFirmSize, wUrgency,
    getRecommendationLevel, jge, max_def, min_def, Except.instMonad, Except.bind]
  norm_num
/-- The specialization match count never exceeds the number of required
services. -/
theorem countSpecMatches_le (l specs : List (JField String)) (m : ℕ)
    (h : countSpecMatches l specs = .ok m) : m ≤ l.length := by
  induction l generalizing m with
  | nil =>
      simp only [countSpecMatches] at h
      cases h
      simp
  | cons hd tl ih =>
      cases hd with
      | val sv =>
          simp only [countSpecMatches, Except.instMonad, Except.bind, bind] at h
          cases hb : specLoop sv specs with
          | error e => rw [hb] at h; cases h
          | ok b =>
              rw [hb] at h
              cases hn : countSpecMatches tl specs with
              | error e => rw [hn] at h; cases h
              | ok n =>
                  rw [hn] at h
                  cases h
                  have := ih n hn
                  cases b <;> simp <;> omega
      | absent => simp only [countSpecMatches] at h; cases h
      | bad => simp only [countSpecMatches] at h; cases h

/-- The specialization sub-score lies in the unit interval. -/
theorem spec_score_bounds (r s : JField (List (JField String))) (q : ℚ)
    (h : calculateSpecializationMatch r s = .ok q) : 0 ≤ q ∧ q ≤ 1 := by
  cases r with
  | absent => simp only [calculateSpecializationMatch] at h; cases h; norm_num
  | val rl =>
      cases s with
      | absent => simp only [calculateSpecializationMatch] at h; cases h; norm_num
      | val sl =>
          simp only [calculateSpecializationMatch, Except.instMonad, Except.bind, bind] at h
          split at h
          · cases h; norm_num
          · rename_i hlen
            cases hm : countSpecMatches rl sl with
            | error e => rw [hm] at h; cases h
            | ok m =>
                rw [hm] at h
                cases h
                have hle := countSpecMatches_le _ _ _ hm
                have hpos : 0 < (rl.length : ℚ) := by
                  exact_mod_cast Nat.pos_of_ne_zero hlen
                refine ⟨by positivity, ?_⟩
                rw [div_le_one hpos]
                exact_mod_cast hle
      | bad =>
          simp only [calculateSpecializationMatch, Except.instMonad, Except.bind, bind] at h
          split at h
          · cases h; norm_num
          · rename_i hlen
            cases hm : countSpecMatches rl [JField.bad] with
            | error e => rw [hm] at h; cases h
            | ok m =>
                rw [hm] at h
                cases h
                have hle := countSpecMatches_le _ _ _ hm
                have hpos : 0 < (rl.length : ℚ) := by
                  exact_mod_cast Nat.pos_of_ne_zero hlen
                refine ⟨by positivity, ?_⟩
                rw [div_le_one hpos]
                exact_mod_cast hle
  | bad =>
      cases s with
      | absent => simp only [calculateSpecializationMatch] at h; cases h; norm_num
      | val sl =>
          simp only [calculateSpecializationMatch, countSpecMatches] at h
          cases h
      | bad =>
          simp only [calculateSpecializationMatch, countSpecMatches] at h
          cases h

/-- The location sub-score is one of the four constants of the source. -/
theorem loc_score_mem (cl pr : JField String) (cr rok : Bool) (q : ℚ)
    (h : calculateLocationMatch cl pr cr rok = .ok q) :
    q = 1 ∨ q = 9/10 ∨ q = 7/10 ∨ q = 3/10 := by
  unfold calculateLocationMatch at h
  dsimp only at h
  split at h
  · cases h; exact Or.inl rfl
  · split at h
    · cases cl with
      | val cls =>
          cases pr with
          | val prs =>
              dsimp only at h
              split at h
              · cases h; exact Or.inr (Or.inl rfl)
              · split at h
                · cases h; exact Or.inr (Or.inr (Or.inl rfl))
                · cases h; exact Or.inr (Or.inr (Or.inr rfl))
          | absent => simp [truthyF] at *
          | bad => cases h
      | absent => simp [truthyF] at *
      | bad =>
          cases pr with
          | val prs => cases h
          | absent => simp [truthyF] at *
          | bad => cases h
    · split at h
      · cases h; exact Or.inr (Or.inr (Or.inl rfl))
      · cases h; exact Or.inr (Or.inr (Or.inr rfl))

/-- The communication sub-score is one of the four constants of the
source. -/
theorem comm_score_mem (p s : JField String) (q : ℚ)
    (h : calculateCommunicationMatch p s = .ok q) :
    q = 7/10 ∨ q = 1 ∨ q = 8/10 ∨ q = 1/2 := by
  unfold calculateCommunicationMatch at h
  split at h
  · cases h; exact Or.inl rfl
  · cases p with
    | val ps =>
        cases s with
        | val ss =>
            dsimp only at h
            split at h
            · cases h; exact Or.inr (Or.inl rfl)
            · split at h
              · cases h; exact Or.inr (Or.inr (Or.inl rfl))
              · cases h; exact Or.inr (Or.inr (Or.inr rfl))
        | absent => simp [truthyF] at *
        | bad => cases h
    | absent => simp [truthyF] at *
    | bad =>
        cases s with
        | val ss => cases h
        | absent => simp [truthyF] at *
        | bad => cases h

/-- The firm-size sub-score is one of the three constants of the source. -/
theorem firm_score_mem (b f : JField String) (q : ℚ)
    (h : calculateFirmSizeMatch b f = .ok q) :
    q = 7/10 ∨ q = 1 ∨ q = 2/5 := by
  unfold calculateFirmSizeMatch at h
  split at h
  · cases h; exact Or.inl rfl
  · cases b with
    | val bs =>
        cases f with
        | val fs =>
            dsimp only at h
            split at h
            · split at h
              · cases h; exact Or.inr (Or.inl rfl)
              · cases h; exact Or.inr (Or.inr rfl)
            · cases h; exact Or.inr (Or.inr rfl)
        | absent => simp [truthyF] at *
        | bad => cases h
    | absent => simp [truthyF] at *
    | bad =>
        cases f with
        | val fs => cases h
        | absent => simp [truthyF] at *
        | bad => cases h

/-- The urgency sub-score is one of the constants of the source. -/
theorem urg_score_mem (u : JField String) (e : Option ℚ) (q : ℚ)
    (h : calculateUrgencyMatch u e = .ok q) :
    q = 4/5 ∨ q = 1 ∨ q = 3/5 ∨ q = 9/10 := by
  unfold calculateUrgencyMatch at h
  split at h
  · cases h; exact Or.inl rfl
  · cases u with
    | val us =>
        dsimp only at h
        split at h
        · split at h
          · cases h; exact Or.inr (Or.inl rfl)
          · split at h
            · cases h; exact Or.inl rfl
            · cases h; exact Or.inr (Or.inr (Or.inl rfl))
        · split at h
          · cases h; exact Or.inr (Or.inr (Or.inr rfl))
          · cases h; exact Or.inl rfl
    | absent => simp [truthyF] at *
    | bad => cases h

/-- The budget sub-score is finite and in the unit interval whenever,
should all four bounds be truthy, the client maximum is positive and the
four bounds are not all one value (excluding the 0/0 NaN case and the
negative-maximum distance penalty). -/
theorem budget_score_bounds (x y z w : Option ℚ)
    (hok : (truthyQ x && truthyQ y && truthyQ z && truthyQ w) = true →
      0 < y.getD 0 ∧ ¬(x = y ∧ z = w ∧ y = z)) :
    ∃ q, calculateBudgetAlignment x y z w = .fin q ∧ 0 ≤ q ∧ q ≤ 1 := by
  rcases x with _ | a
  · exact ⟨1/2, by simp [calculateBudgetAlignment, truthyQ], by norm_num, by norm_num⟩
  rcases y with _ | b
  · exact ⟨1/2, by simp [calculateBudgetAlignment, truthyQ], by norm_num, by norm_num⟩
  rcases z with _ | c
  · exact ⟨1/2, by simp [calculateBudgetAlignment, truthyQ], by norm_num, by norm_num⟩
  rcases w with _ | d
  · exact ⟨1/2, by simp [calculateBudgetAlignment, truthyQ], by norm_num, by norm_num⟩
  by_cases ha : a = 0
  · exact ⟨1/2, by simp [calculateBudgetAlignment, truthyQ, ha], by norm_num, by norm_num⟩
  by_cases hb : b = 0
  · exact ⟨1/2, by simp [calculateBudgetAlignment, truthyQ, hb], by norm_num, by norm_num⟩
  by_cases hc : c = 0
  · exact ⟨1/2, by simp [calculateBudgetAlignment, truthyQ, hc], by norm_num, by norm_num⟩
  by_cases hd : d = 0
  · exact ⟨1/2, by simp [calculateBudgetAlignment, truthyQ, hd], by norm_num, by norm_num⟩
  have htr : (truthyQ (some a) && truthyQ (some b) && truthyQ (some c)
      && truthyQ (some d)) = true := by simp [truthyQ, ha, hb, hc, hd]
  obtain ⟨hbpos, hne⟩ := hok htr
  simp only [Option.getD_some] at hbpos
  have hne2 : ¬(a = b ∧ c = d ∧ b = c) := by simpa using hne
  unfold calculateBudgetAlignment
  rw [if_pos htr]
  dsimp only
  simp only [Option.getD_some]
  by_cases hov : max a c ≤ min b d
  · rw [if_pos hov]
    have hab : a ≤ b := le_trans (le_max_left a c) (le_trans hov (min_le_left b d))
    have hcd : c ≤ d := le_trans (le_max_right a c) (le_trans hov (min_le_right b d))
    have havg : (b - a + (d - c)) / 2 ≠ 0 := by
      intro h0
      have hEq1 : a = b := by nlinarith
      have hEq2 : c = d := by nlinarith
      have h2 : max a c ≤ min a c := by
        rw [← hEq1, ← hEq2] at hov
        exact hov
      have hac : a = c :=
        le_antisymm (le_trans (le_max_left a c) (le_trans h2 (min_le_right a c)))
          (le_trans (le_max_right a c) (le_trans h2 (min_le_left a c)))
      exact hne2 ⟨hEq1, hEq2, by rw [← hEq1, hac]⟩
    rw [if_neg havg]
    have havgpos : 0 < (b - a + (d - c)) / 2 :=
      lt_of_le_of_ne (by linarith) (Ne.symm havg)
    have hnum : 0 ≤ min b d - max a c := by linarith
    exact ⟨_, rfl, le_min (by norm_num) (div_nonneg hnum (le_of_lt havgpos)),
      min_le_left _ _⟩
  · rw [if_neg hov]
    have hd0 : 0 ≤ min |b - c| |d - a| := le_min (abs_nonneg _) (abs_nonneg _)
    have hdb : 0 ≤ min |b - c| |d - a| / b := div_nonneg hd0 (le_of_lt hbpos)
    exact ⟨_, rfl, le_max_left _ _, max_le (by norm_num) (by linarith)⟩

/-- calculateMatchScore either takes the catch path (score 0, label
Error) or returns the weighted round of the six sub-scores. -/
theorem match_score_cases (client : ClientProfile) (cpa : CPAProfile) :
    calculateMatchScore client cpa
      = { match_score := .fin 0, match_factors := none, recommendation_level := "Error" }
    ∨ ∃ s l c f u : ℚ,
        calculateSpecializationMatch client.required_services cpa.specializations = .ok s
        ∧ calculateLocationMatch client.location_preference cpa.province
            cpa.remote_services client.remote_acceptable = .ok l
        ∧ calculateCommunicationMatch client.preferred_communication
            cpa.communication_style = .ok c
        ∧ calculateFirmSizeMatch client.business_size cpa.firm_size = .ok f
        ∧ calculateUrgencyMatch client.urgency_level cpa.years_experience = .ok u
        ∧ (calculateMatchScore client cpa).match_score
            = jround (jmulC (jadd (jadd (jadd (jadd (jadd (jadd (.fin 0)
                (.fin (s * wSpecialization))) (.fin (l * wLocation)))
                (jmulC (calculateBudgetAlignment client.budget_range_min
                  client.budget_range_max cpa.hourly_rate_min cpa.hourly_rate_max)
                  wBudget))
                (.fin (c * wCommunication))) (.fin (f * wFirmSize)))
                (.fin (u * wUrgency))) 100) := by
  cases hs : calculateSpecializationMatch client.required_services cpa.specializations with
  | error e =>
      left
      unfold calculateMatchScore scoreTryBlock
      rw [hs]
      rfl
  | ok s =>
  cases hl : calculateLocationMatch client.location_preference cpa.province
      cpa.remote_services client.remote_acceptable with
  | error e =>
      left
      unfold calculateMatchScore scoreTryBlock
      rw [hs, hl]
      rfl
  | ok l =>
  cases hc : calculateCommunicationMatch client.preferred_communication
      cpa.communication_style with
  | error e =>
      left
      unfold calculateMatchScore scoreTryBlock
      rw [hs, hl, hc]
      rfl
  | ok c =>
  cases hf : calculateFirmSizeMatch client.business_size cpa.firm_size with
  | error e =>
      left
      unfold calculateMatchScore scoreTryBlock
      rw [hs, hl, hc, hf]
      rfl
  | ok f =>
  cases hu : calculateUrgencyMatch client.urgency_level cpa.years_experience with
  | error e =>
      left
      unfold calculateMatchScore scoreTryBlock
      rw [hs, hl, hc, hf, hu]
      rfl
  | ok u =>
      right
      refine ⟨s, l, c, f, u, rfl, rfl, rfl, rfl, rfl, ?_⟩
      unfold calculateMatchScore scoreTryBlock
      rw [hs, hl, hc, hf, hu]
      rfl

/-- C2 (amended).  For every client and candidate profile, with any
subset of fields missing or malformed, calculateMatchScore returns a
finite match_score in 0 to 100 PROVIDED that, whenever all four budget
bounds are present and nonzero, the client maximum budget is positive
and the four bounds are not all equal (without the proviso the score can
exceed 100 or be NaN, as the counterexample shows); a sub-score that
throws is caught and mapped to score 0 with the Error label; and each
eligible candidate is scored by its own total function application, so
one candidate cannot prevent the scoring of the rest. -/
theorem match_score_range :
    (∀ (client : ClientProfile) (cpa : CPAProfile),
      ((truthyQ client.budget_range_min && truthyQ client.budget_range_max
          && truthyQ cpa.hourly_rate_min && truthyQ cpa.hourly_rate_max) = true →
        0 < client.budget_range_max.getD 0
        ∧ ¬(client.budget_range_min = client.budget_range_max
            ∧ cpa.hourly_rate_min = cpa.hourly_rate_max
            ∧ client.budget_range_max = cpa.hourly_rate_min)) →
      ∃ q : ℚ, (calculateMatchScore client cpa).match_score = .fin q
        ∧ 0 ≤ q ∧ q ≤ 100)
    ∧ (∀ (client : ClientProfile) (cpa : CPAProfile) (e : String),
        scoreTryBlock client cpa = .error e →
        calculateMatchScore client cpa
          = { match_score := .fin 0, match_factors := none,
              recommendation_level := "Error" })
    ∧ (∀ (client : ClientProfile) (cpas : List CPAProfile) (c : CPAProfile),
        c ∈ cpas → eligibleCPA c = true →
        (⟨c.cpa_id, c, calculateMatchScore client c⟩ : MatchEntry)
          ∈ scoredMatches client cpas) := by
  refine ⟨?_, ?_, ?_⟩
  · intro client cpa hbud
    rcases match_score_cases client cpa with hcase | ⟨s, l, c, f, u, hs, hl, hc, hf, hu, heq⟩
    · exact ⟨0, by rw [hcase], by norm_num, by norm_num⟩
    · obtain ⟨qb, hqb, hqb0, hqb1⟩ := budget_score_bounds _ _ _ _ hbud
      have hsb := spec_score_bounds _ _ _ hs
      have hlb : 0 ≤ l ∧ l ≤ 1 := by
        rcases loc_score_mem _ _ _ _ _ hl with h | h | h | h <;> rw [h] <;> norm_num
      have hcb : 0 ≤ c ∧ c ≤ 1 := by
        rcases comm_score_mem _ _ _ hc with h | h | h | h <;> rw [h] <;> norm_num
      have hfb : 0 ≤ f ∧ f ≤ 1 := by
        rcases firm_score_mem _ _ _ hf with h | h | h <;> rw [h] <;> norm_num
      have hub : 0 ≤ u ∧ u ≤ 1 := by
        rcases urg_score_mem _ _ _ hu with h | h | h | h <;> rw [h] <;> norm_num
      rw [hqb] at heq
      simp only [jadd, jmulC, jround] at heq
      set T : ℚ := 0 + s * wSpecialization + l * wLocation + qb * wBudget
        + c * wCommunication + f * wFirmSize + u * wUrgency with hT
      have hT0 : 0 ≤ T := by
        rw [hT]
        unfold wSpecialization wLocation wBudget wCommunication wFirmSize wUrgency
        nlinarith [hsb.1, hlb.1, hqb0, hcb.1, hfb.1, hub.1]
      have hT1 : T ≤ 1 := by
        rw [hT]
        unfold wSpecialization wLocation wBudget wCommunication wFirmSize wUrgency
        nlinarith [hsb.2, hlb.2, hqb1, hcb.2, hfb.2, hub.2]
      refine ⟨((⌊T * 100 + 1/2⌋ : ℤ) : ℚ), ?_, ?_, ?_⟩
      · rw [heq]
      · have h0 : (0 : ℤ) ≤ ⌊T * 100 + 1/2⌋ := by
          apply Int.le_floor.mpr
          push_cast
          linarith
        exact_mod_cast h0
      · have h1 : ⌊T * 100 + 1/2⌋ < 101 := by
          apply Int.floor_lt.mpr
          push_cast
          linarith
        have h2 : ⌊T * 100 + 1/2⌋ ≤ 100 := by omega
        exact_mod_cast h2
  · intro client cpa e h
    unfold calculateMatchScore
    rw [h]
  · intro client cpas c hc helig
    unfold scoredMatches
    exact List.mem_map_of_mem _ (List.mem_filter.mpr ⟨hc, helig⟩)

/-- C2 witness: the amended theorem applied to two empty profiles, whose
budget proviso holds vacuously. -/
theorem match_score_range_witness :
    ∃ q : ℚ, (calculateMatchScore {} {}).match_score = .fin q ∧ 0 ≤ q ∧ q ≤ 100 :=
  match_score_range.1 {} {} (by intro h; simp [truthyQ] at h)

/-- A hash is stored after the insert loop exactly when it was stored
before or belongs to one of the processed records. -/
theorem insertAll_mem (p : String) (rs : List ScrapedRecord) :
    ∀ (db : List String) (h : String),
    (h ∈ (insertAll p db rs).1
      ↔ h ∈ db ∨ h ∈ rs.map (fun r => generateNameHash (recordFullName r) p)) := by
  induction rs with
  | nil => intro db h; simp [insertAll]
  | cons r rest ih =>
      intro db h
      simp only [insertAll, insertRecord]
      split
      · rename_i hmem
        rw [ih]
        simp only [List.map_cons, List.mem_cons]
        constructor
        · rintro (hd | ht)
          · exact Or.inl hd
          · exact Or.inr (Or.inr ht)
        · rintro (hd | he | ht)
          · exact Or.inl hd
          · rw [he]; exact Or.inl hmem
          · exact Or.inr ht
      · rw [ih]
        simp only [List.mem_append, List.mem_singleton, List.map_cons, List.mem_cons]
        tauto

/-- When every record hash is already persisted the insert loop inserts
nothing and skips every record. -/
theorem insertAll_skips_all (p : String) (rs : List ScrapedRecord) :
    ∀ db : List String,
    (∀ r ∈ rs, generateNameHash (recordFullName r) p ∈ db) →
    insertAll p db rs = (db, 0, rs.length) := by
  induction rs with
  | nil => intro db _; simp [insertAll]
  | cons r rest ih =>
      intro db hall
      have hr : generateNameHash (recordFullName r) p ∈ db :=
        hall r (List.mem_cons_self r rest)
      simp only [insertAll, insertRecord, if_pos hr]
      rw [ih db (fun x hx => hall x (List.mem_cons_of_mem r hx))]
      simp

/-- The insert loop never stores a hash twice. -/
theorem insertAll_nodup (p : String) (rs : List ScrapedRecord) :
    ∀ db : List String, db.Nodup → (insertAll p db rs).1.Nodup := by
  induction rs with
  | nil => intro db hdb; simpa [insertAll] using hdb
  | cons r rest ih =>
      intro db hdb
      simp only [insertAll, insertRecord]
      split
      · exact ih db hdb
      · rename_i hmem
        apply ih
        simp [List.nodup_append, hdb, hmem]

/-- Pairwise-distinct fresh hashes are all inserted. -/
theorem insertAll_inserts_fresh (p : String) (rs : List ScrapedRecord) :
    ∀ db : List String,
    (∀ r ∈ rs, generateNameHash (recordFullName r) p ∉ db) →
    (rs.map (fun r => generateNameHash (recordFullName r) p)).Nodup →
    (insertAll p db rs).2.1 = rs.length := by
  induction rs with
  | nil => intro db _ _; simp [insertAll]
  | cons r rest ih =>
      intro db hfresh hnd
      have hr : generateNameHash (recordFullName r) p ∉ db :=
        hfresh r (List.mem_cons_self r rest)
      simp only [insertAll, insertRecord, if_neg hr]
      simp only [List.map_cons, List.nodup_cons] at hnd
      have hrest : ∀ x ∈ rest, generateNameHash (recordFullName x) p ∉ db ++
          [generateNameHash (recordFullName r) p] := by
        intro x hx
        simp only [List.mem_append, List.mem_singleton]
        rintro (hin | heq)
        · exact hfresh x (List.mem_cons_of_mem r hx) hin
        · exact hnd.1 (heq ▸ List.mem_map_of_mem _ hx)
      rw [ih _ hrest hnd.2]
      simp

/-- C4 (amended).  A record whose identity hash already has a persisted
row is rejected: the store is unchanged and the record is skipped, never
merged; a second identical run inserts 0, skips every record (its skipped
count equals its found count) and leaves the store unchanged; the store
never holds a hash twice; the stored hashes after a run are exactly the
prior ones plus the hashes of the processed records; and when the store
starts empty and the record hashes are pairwise distinct, the first run
inserts them all, so only then does the second run skipped count equal
the first run inserted count (the unqualified equality of the claim fails
on duplicated records, as the counterexample shows). -/
theorem dedup_idempotence :
    (∀ (p : String) (db : List String) (r : ScrapedRecord),
       generateNameHash (recordFullName r) p ∈ db → insertRecord p db r = (db, false))
    ∧ (∀ (p : String) (db : List String) (rs : List ScrapedRecord),
        insertAll p (insertAll p db rs).1 rs = ((insertAll p db rs).1, 0, rs.length))
    ∧ (∀ (p : String) (db : List String) (rs : List ScrapedRecord),
        db.Nodup → (insertAll p db rs).1.Nodup)
    ∧ (∀ (p : String) (db : List String) (rs : List ScrapedRecord) (h : String),
        h ∈ (insertAll p db rs).1
          ↔ h ∈ db ∨ h ∈ rs.map (fun r => generateNameHash (recordFullName r) p))
    ∧ (∀ (p : String) (rs : List ScrapedRecord),
        (rs.map (fun r => generateNameHash (recordFullName r) p)).Nodup →
        (insertAll p [] rs).2.1 = rs.length) := by
  refine ⟨?_, ?_, ?_, ?_, ?_⟩
  · intro p db r hmem
    simp [insertRecord, hmem]
  · intro p db rs
    apply insertAll_skips_all
    intro r hr
    rw [insertAll_mem]
    exact Or.inr (List.mem_map_of_mem _ hr)
  · intro p db rs hdb
    exact insertAll_nodup p rs db hdb
  · intro p db rs h
    exact insertAll_mem p rs db h
  · intro p rs hnd
    exact insertAll_inserts_fresh p rs [] (by simp) hnd

/-- Stable insertion permutes. -/
theorem insertEntry_perm (x : MatchEntry) : ∀ l : List MatchEntry,
    List.Perm (insertEntry x l) (x :: l) := by
  intro l
  induction l with
  | nil => simp [insertEntry]
  | cons y ys ih =>
      simp only [insertEntry]
      split
      · exact List.Perm.refl _
      · exact ((ih.cons y).trans (List.Perm.swap x y ys))

/-- The sort is a permutation. -/
theorem sortMatches_perm : ∀ l : List MatchEntry, List.Perm (sortMatches l) l := by
  intro l
  induction l with
  | nil => simp [sortMatches]
  | cons x xs ih =>
      simp only [sortMatches]
      exact (insertEntry_perm x (sortMatches xs)).trans (ih.cons x)

/-- Membership after stable insertion. -/
theorem insertEntry_mem (x : MatchEntry) : ∀ (l : List MatchEntry) (e : MatchEntry),
    e ∈ insertEntry x l ↔ e = x ∨ e ∈ l := by
  intro l
  induction l with
  | nil => intro e; simp [insertEntry]
  | cons y ys ih =>
      intro e
      simp only [insertEntry]
      split
      · simp [List.mem_cons]
      · simp only [List.mem_cons, ih]
        tauto

/-- Stable insertion preserves the descending order when no score is
NaN. -/
theorem insertEntry_sorted (x : MatchEntry) (hx : x.result.match_score ≠ .nan) :
    ∀ l : List MatchEntry, (∀ e ∈ l, e.result.match_score ≠ .nan) →
    l.Pairwise (fun a b => cmpLe a b = true) →
    (insertEntry x l).Pairwise (fun a b => cmpLe a b = true) := by
  intro l
  induction l with
  | nil => intro _ _; simp [insertEntry]
  | cons y ys ih =>
      intro hl hs
      rw [List.pairwise_cons] at hs
      simp only [insertEntry]
      split
      · rename_i hxy
        rw [List.pairwise_cons]
        refine ⟨?_, List.pairwise_cons.mpr hs⟩
        intro b hb
        rcases List.mem_cons.mp hb with rfl | hb2
        · exact hxy
        · have hyb := hs.1 b hb2
          cases hxs : x.result.match_score with
          | nan => exact absurd hxs hx
          | fin qx =>
            cases hys : y.result.match_score with
            | nan => exact absurd hys (hl y (List.mem_cons_self y ys))
            | fin qy =>
              cases hbs : b.result.match_score with
              | nan => simp [cmpLe, hxs, hbs]
              | fin qb2 =>
                simp only [cmpLe, hxs, hys, decide_eq_true_eq] at hxy
                simp only [cmpLe, hys, hbs, decide_eq_true_eq] at hyb
                simp only [cmpLe, hxs, hbs, decide_eq_true_eq]
                exact le_trans hyb hxy
      · rename_i hxy
        rw [List.pairwise_cons]
        constructor
        · intro b hb
          rcases (insertEntry_mem x ys b).mp hb with rfl | hb2
          · cases hxs : b.result.match_score with
            | nan => exact absurd hxs hx
            | fin qx =>
              cases hys : y.result.match_score with
              | nan => exact absurd hys (hl y (List.mem_cons_self y ys))
              | fin qy =>
                simp only [cmpLe, hxs, hys, decide_eq_true_eq] at hxy
                simp only [cmpLe, hys, hxs, decide_eq_true_eq]
                exact le_of_not_le hxy
          · exact hs.1 b hb2
        · exact ih (fun e he => hl e (List.mem_cons_of_mem y he)) hs.2

/-- The sort output is descending by score when no score is NaN. -/
theorem sortMatches_sorted : ∀ l : List MatchEntry,
    (∀ e ∈ l, e.result.match_score ≠ .nan) →
    (sortMatches l).Pairwise (fun a b => cmpLe a b = true) := by
  intro l
  induction l with
  | nil => intro _; simp [sortMatches]
  | cons x xs ih =>
      intro hl
      simp only [sortMatches]
      apply insertEntry_sorted x (hl x (List.mem_cons_self x xs))
      · intro e he
        exact hl e (List.mem_cons_of_mem x ((sortMatches_perm xs).mem_iff.mp he))
      · exact ih (fun e he => hl e (List.mem_cons_of_mem x he))

/-- An inserted element lands before every element of its own score
class. -/
theorem insertEntry_filter_pos (x : MatchEntry) (s : ℚ)
    (hx : x.result.match_score = .fin s) : ∀ l : List MatchEntry,
    (insertEntry x l).filter (fun e => e.result.match_score == JNum.fin s)
      = x :: l.filter (fun e => e.result.match_score == JNum.fin s) := by
  intro l
  induction l with
  | nil => simp [insertEntry, List.filter_cons, beq_iff_eq, hx]
  | cons y ys ih =>
      simp only [insertEntry]
      split
      · simp [List.filter_cons, beq_iff_eq, hx]
      · rename_i hxy
        have hy : (y.result.match_score == JNum.fin s) = false := by
          cases hys : y.result.match_score with
          | nan => exfalso; apply hxy; simp [cmpLe, hx, hys]
          | fin t =>
              simp only [cmpLe, hx, hys, decide_eq_true_eq] at hxy
              simp only [beq_eq_false_iff_ne, ne_eq, JNum.fin.injEq]
              intro ht
              exact hxy (le_of_eq ht)
        simp [List.filter_cons, hy, ih]

/-- Insertion does not disturb another score class. -/
theorem insertEntry_filter_neg (x : MatchEntry) (s : ℚ)
    (hx : ¬ x.result.match_score = .fin s) : ∀ l : List MatchEntry,
    (insertEntry x l).filter (fun e => e.result.match_score == JNum.fin s)
      = l.filter (fun e => e.result.match_score == JNum.fin s) := by
  intro l
  induction l with
  | nil => simp [insertEntry, List.filter_cons, beq_iff_eq, hx]
  | cons y ys ih =>
      simp only [insertEntry]
      split
      · simp [List.filter_cons, beq_iff_eq, hx]
      · simp [List.filter_cons, ih]

/-- Stability: each equal-score class keeps its input order through the
sort. -/
theorem sortMatches_filter (s : ℚ) : ∀ l : List MatchEntry,
    (sortMatches l).filter (fun e => e.result.match_score == JNum.fin s)
      = l.filter (fun e => e.result.match_score == JNum.fin s) := by
  intro l
  induction l with
  | nil => simp [sortMatches]
  | cons x xs ih =>
      simp only [sortMatches]
      by_cases hx : x.result.match_score = .fin s
      · rw [insertEntry_filter_pos x s hx, ih, List.filter_cons]
        simp [beq_iff_eq, hx]
      · rw [insertEntry_filter_neg x s hx, ih, List.filter_cons]
        simp [beq_iff_eq, hx]

/-- C5 (confirmed).  findTopMatches scores exactly the candidates with
verification_status verified and a truthy is_active, sorts the scored
list stably and truncates it to the first limit entries: the sorted list
is a permutation of the scored list, elements of every equal-score class
keep their relative input order, and whenever no score is NaN the output
is pairwise non-increasing in match_score; determinism is immediate
because the embedding is a pure function of its arguments, mirroring the
source which reads no state outside its inputs. -/
theorem find_top_matches_ranking :
    (∀ (client : ClientProfile) (cpas : List CPAProfile) (limit : ℕ),
        findTopMatches client cpas limit
          = (sortMatches (scoredMatches client cpas)).take limit)
    ∧ (∀ (client : ClientProfile) (cpas : List CPAProfile),
        List.Perm (sortMatches (scoredMatches client cpas)) (scoredMatches client cpas))
    ∧ (∀ (client : ClientProfile) (cpas : List CPAProfile),
        (scoredMatches client cpas).map (fun e => e.cpa_profile)
          = cpas.filter eligibleCPA)
    ∧ (∀ (l : List MatchEntry) (s : ℚ),
        (sortMatches l).filter (fun e => e.result.match_score == JNum.fin s)
          = l.filter (fun e => e.result.match_score == JNum.fin s))
    ∧ (∀ l : List MatchEntry,
        (∀ e ∈ l, e.result.match_score ≠ JNum.nan) →
        (sortMatches l).Pairwise (fun a b => cmpLe a b = true)) := by
  refine ⟨?_, ?_, ?_, ?_, ?_⟩
  · intro client cpas limit
    rfl
  · intro client cpas
    exact sortMatches_perm _
  · intro client cpas
    simp [scoredMatches, List.map_map]
    exact List.map_id _
  · intro l s
    exact sortMatches_filter s l
  · intro l hl
    exact sortMatches_sorted l hl

/-- C5 witness: the sortedness clause applied to a concrete two-entry
match list with finite scores. -/
theorem find_top_matches_ranking_witness :
    (sortMatches
        [⟨1, {}, { match_score := JNum.fin 35, match_factors := none,
                   recommendation_level := "Poor Match" }⟩,
         ⟨2, {}, { match_score := JNum.fin 80, match_factors := none,
                   recommendation_level := "Very Good Match" }⟩]).Pairwise
      (fun a b => cmpLe a b = true) := by
  apply find_top_matches_ranking.2.2.2.2
  intro e he
  rcases List.mem_cons.mp he with rfl | he2
  · simp
  · rcases List.mem_cons.mp he2 with rfl | he3
    · simp
    · cases he3

/-- C4 counterexample: over a response carrying the same person twice,
the first run inserts 1, while the second run skips 2, so the second run
skipped count is not the first run inserted count. -/
theorem dedup_second_run_skipped_counterexample :
    (insertAll "BC"
        (insertAll "BC" [] [{ fullName := "John Smith" }, { fullName := "John Smith" }]).1
        [{ fullName := "John Smith" }, { fullName := "John Smith" }]).2.2 = 2
    ∧ (insertAll "BC" [] [{ fullName := "John Smith" },
        { fullName := "John Smith" }]).2.1 = 1
    ∧ (2 : ℕ) ≠ 1 := by
  refine ⟨by decide, by decide, by decide⟩

/-- C4 witness: the reject clause applied to a store already holding the
hash, and the fresh-insert clause applied to two distinct names. -/
theorem dedup_idempotence_witness :
    insertRecord "BC" [generateNameHash "John Smith" "BC"] { fullName := "John Smith" }
      = ([generateNameHash "John Smith" "BC"], false)
    ∧ (insertAll "BC" [] [{ fullName := "Ann Lee" }, { fullName := "Bo Chan" }]).2.1 = 2 :=
  ⟨dedup_idempotence.1 "BC" [generateNameHash "John Smith" "BC"]
      { fullName := "John Smith" } (by decide),
   dedup_idempotence.2.2.2.2 "BC" [{ fullName := "Ann Lee" }, { fullName := "Bo Chan" }]
      (by decide)⟩

/-- C6 counterexample: on the fixed sample table no parsed record has
lastName Smith, firstName John and designation CPA, CA, because the
designation regex demands a comma directly before the CPA stem and the
cell Smith, John CPA, CA has none. -/
theorem grid_parse_split_counterexample :
    ¬ ∃ r ∈ bcParseResults c6SampleTable,
        r.lastName = "Smith" ∧ r.firstName = "John" ∧ r.designation = "CPA, CA" := by
  decide

/-- C6 (amended).  On the fixed sample table with one header row, two
data rows and one no-records row, the grid parser yields exactly the two
data records and skips the chrome rows; the cell Smith, John CPA, CA is
split as lastName Smith, firstName John CPA, designation CPA (the
regex needs a comma immediately before CPA), and the split the claim
expects arises for the cell Smith, John, CPA, CA. -/
theorem grid_parse_sample_table :
    bcParseResults c6SampleTable
      = [{ firstName := "John CPA"
           lastName := "Smith"
           fullName := "John CPA Smith"
           city := "Vancouver"
           designation := "CPA"
           firmName := "Smith LLP" },
         { firstName := "Maria"
           lastName := "Garcia"
           fullName := "Maria Garcia"
           city := "Victoria"
           designation := "CPA, CMA"
           firmName := "" }]
    ∧ (bcParseResults c6SampleTable).length = 2
    ∧ bcParseRow { classes := ["rgRow"]
                   thCount := 0
                   cells := ["Smith, John, CPA, CA", "Member", "", "Vancouver (BC)"] }
        = some { firstName := "John"
                 lastName := "Smith"
                 fullName := "John Smith"
                 city := "Vancouver"
                 designation := "CPA, CA"
                 firmName := "" } := by
  refine ⟨by decide, by decide, by decide⟩

/-- The tooMany flag is set exactly on the refine-your-search response. -/
theorem searchAndParse_tooMany (db : List String) (resp : AlbertaResp) :
    (searchAndParse db resp).tooMany = true ↔ resp = AlbertaResp.refine := by
  cases resp with
  | refine => simp [searchAndParse]
  | noResults => simp [searchAndParse]
  | multi rows => simp [searchAndParse]
  | detail n c =>
      simp only [searchAndParse]
      split <;> simp

/-- The narrowing loop totals are the sums of the per-initial counts. -/
theorem narrowFold_counts (env : String → String → AlbertaResp) (l : String) :
    ∀ (is : List Char) (db : List String),
    (albertaNarrowFold env l db is).2.1
        = ((albertaSubCounts env l db is).map (fun t => t.1)).sum
    ∧ (albertaNarrowFold env l db is).2.2.1
        = ((albertaSubCounts env l db is).map (fun t => t.2.1)).sum
    ∧ (albertaNarrowFold env l db is).2.2.2
        = ((albertaSubCounts env l db is).map (fun t => t.2.2)).sum := by
  intro is
  induction is with
  | nil => intro db; simp [albertaNarrowFold, albertaSubCounts]
  | cons i rest ih =>
      intro db
      simp only [albertaNarrowFold, albertaSubCounts, List.map_cons, List.sum_cons]
      obtain ⟨h1, h2, h3⟩ := ih (searchAndParse db (env l (String.singleton i))).db
      exact ⟨by rw [h1], by rw [h2], by rw [h3]⟩

/-- C7 (confirmed).  When the plain last-name search is refused with the
refine-your-search response, the Alberta step runs the full A to Z
narrowing loop, submits one narrowed query per initial after the plain
query, and its found, inserted and skipped totals are the sums of the
counts of all 26 narrowed sub-searches; a search that is not refused
contributes its own counts and submits only the plain query. -/
theorem alberta_narrowing_aggregates :
    (∀ (env : String → String → AlbertaResp) (db : List String) (l : String),
      env l "" = AlbertaResp.refine →
      albertaStep env db l = albertaNarrowFold env l db albertaInitials
      ∧ (albertaStep env db l).2.1
          = ((albertaSubCounts env l db albertaInitials).map (fun t => t.1)).sum
      ∧ (albertaStep env db l).2.2.1
          = ((albertaSubCounts env l db albertaInitials).map (fun t => t.2.1)).sum
      ∧ (albertaStep env db l).2.2.2
          = ((albertaSubCounts env l db albertaInitials).map (fun t => t.2.2)).sum
      ∧ albertaStepQueries env l
          = (l, "") :: albertaInitials.map (fun i => (l, String.singleton i)))
    ∧ (∀ (env : String → String → AlbertaResp) (db : List String) (l : String),
      env l "" ≠ AlbertaResp.refine →
      albertaStep env db l
        = ((searchAndParse db (env l "")).db, (searchAndParse db (env l "")).found,
           (searchAndParse db (env l "")).inserted, (searchAndParse db (env l "")).skipped)
      ∧ albertaStepQueries env l = [(l, "")]) := by
  constructor
  · intro env db l h
    have hstep : albertaStep env db l = albertaNarrowFold env l db albertaInitials := by
      unfold albertaStep
      rw [h]
      simp [searchAndParse]
    refine ⟨hstep, ?_, ?_, ?_, ?_⟩
    · rw [hstep]; exact (narrowFold_counts env l albertaInitials db).1
    · rw [hstep]; exact (narrowFold_counts env l albertaInitials db).2.1
    · rw [hstep]; exact (narrowFold_counts env l albertaInitials db).2.2
    · unfold albertaStepQueries
      rw [h]
      simp [searchAndParse]
  · intro env db l h
    have htm : (searchAndParse db (env l "")).tooMany = false := by
      rcases hb : (searchAndParse db (env l "")).tooMany with _ | _
      · rfl
      · exact absurd ((searchAndParse_tooMany db (env l "")).mp hb) h
    constructor
    · unfold albertaStep
      dsimp only
      rw [htm]
      simp
    · unfold albertaStepQueries
      have htm2 : (searchAndParse [] (env l "")).tooMany = false := by
        rcases hb : (searchAndParse [] (env l "")).tooMany with _ | _
        · rfl
        · exact absurd ((searchAndParse_tooMany [] (env l "")).mp hb) h
      rw [htm2]
      simp

/-- C7 witness: a mocked environment that refuses Smith alone and returns
one row for Smith with initial A; the step equals the narrowing loop and
finds one record rather than zero. -/
theorem alberta_narrowing_aggregates_witness :
    albertaStep
        (fun l f => if l == "Smith" && f == "" then AlbertaResp.refine
          else if l == "Smith" && f == "A" then
            AlbertaResp.multi [["Name", "City"], ["Adams Smith", "Calgary"]]
          else AlbertaResp.noResults) [] "Smith"
      = albertaNarrowFold
          (fun l f => if l == "Smith" && f == "" then AlbertaResp.refine
            else if l == "Smith" && f == "A" then
              AlbertaResp.multi [["Name", "City"], ["Adams Smith", "Calgary"]]
            else AlbertaResp.noResults) "Smith" [] albertaInitials
    ∧ (albertaStep
        (fun l f => if l == "Smith" && f == "" then AlbertaResp.refine
          else if l == "Smith" && f == "A" then
            AlbertaResp.multi [["Name", "City"], ["Adams Smith", "Calgary"]]
          else AlbertaResp.noResults) [] "Smith").2.1 = 1 :=
  ⟨(alberta_narrowing_aggregates.1
      (fun l f => if l == "Smith" && f == "" then AlbertaResp.refine
        else if l == "Smith" && f == "A" then
          AlbertaResp.multi [["Name", "City"], ["Adams Smith", "Calgary"]]
        else AlbertaResp.noResults) [] "Smith" (by decide)).1,
   by decide⟩

/-- C8 counterexample: five consecutive failures with an always-failing
re-establishment do not end the run: the re-establishment error is
caught, the loop continues into the next term, and the job is recorded
completed, not failed. -/
theorem reestablish_failure_counterexample :
    (scrapeRun "BC" (.ok ()) [.err "e1", .err "e2", .err "e3", .err "e4", .err "e5",
        .ok []] (fun _ => false) []).job = JobStatus.completed 0 0 0
    ∧ (scrapeRun "BC" (.ok ()) [.err "e1", .err "e2", .err "e3", .err "e4", .err "e5",
        .ok []] (fun _ => false) []).job ≠ JobStatus.failedJob "e5"
    ∧ (scrapeRun "BC" (.ok ()) [.err "e1", .err "e2", .err "e3", .err "e4", .err "e5",
        .ok []] (fun _ => false) []).state.reAttempts = 1
    ∧ (scrapeRun "BC" (.ok ()) [.err "e1", .err "e2", .err "e3", .err "e4", .err "e5",
        .ok []] (fun _ => false) []).state.consec = 0 := by
  refine ⟨by decide, by decide, by decide, by decide⟩

/-- C8 (amended).  A successful term resets the consecutive-failure
counter; a failure below five only increments it; at five or more a
session re-establishment is attempted, and the counter resets exactly
when that attempt succeeds; a failed attempt is caught and swallowed, the
counter and the run continue, and a run whose setup succeeded always ends
with a completed job, so a failed re-establishment never ends the run or
fails the job (only a setup failure does, which records the error
message); other scrapers are unaffected because the run never escapes as
an exception. -/
theorem consecutive_failure_policy :
    (∀ (p : String) (reEstOk : ℕ → Bool) (st : LoopState) (recs : List ScrapedRecord),
       (termStep p reEstOk st (.ok recs)).consec = 0
       ∧ (termStep p reEstOk st (.ok recs)).reAttempts = st.reAttempts)
    ∧ (∀ (p : String) (reEstOk : ℕ → Bool) (st : LoopState) (m : String),
        st.consec + 1 < 5 →
        termStep p reEstOk st (.err m) = { st with consec := st.consec + 1 })
    ∧ (∀ (p : String) (reEstOk : ℕ → Bool) (st : LoopState) (m : String),
        5 ≤ st.consec + 1 → reEstOk st.reAttempts = true →
        termStep p reEstOk st (.err m)
          = { st with consec := 0, reAttempts := st.reAttempts + 1 })
    ∧ (∀ (p : String) (reEstOk : ℕ → Bool) (st : LoopState) (m : String),
        5 ≤ st.consec + 1 → reEstOk st.reAttempts = false →
        termStep p reEstOk st (.err m)
          = { st with consec := st.consec + 1, reAttempts := st.reAttempts + 1 })
    ∧ (∀ (p : String) (terms : List TermOutcome) (reEstOk : ℕ → Bool)
        (db : List String), ∃ f i s,
        (scrapeRun p (.ok ()) terms reEstOk db).job = JobStatus.completed f i s)
    ∧ (∀ (p m : String) (terms : List TermOutcome) (reEstOk : ℕ → Bool)
        (db : List String),
        (scrapeRun p (.error m) terms reEstOk db).job = JobStatus.failedJob m) := by
  refine ⟨?_, ?_, ?_, ?_, ?_, ?_⟩
  · intro p reEstOk st recs
    simp [termStep]
  · intro p reEstOk st m h
    simp only [termStep]
    rw [if_neg (by omega)]
  · intro p reEstOk st m h hre
    simp only [termStep]
    rw [if_pos h, if_pos hre]
  · intro p reEstOk st m h hre
    simp only [termStep]
    rw [if_pos h, hre]
    simp
  · intro p terms reEstOk db
    exact ⟨_, _, _, rfl⟩
  · intro p m terms reEstOk db
    rfl

/-- C8 witness: the three error clauses applied at concrete counter
states with succeeding and failing re-establishment. -/
theorem consecutive_failure_policy_witness :
    termStep "BC" (fun _ => false) ⟨[], 0, 0, 0, 4, 0⟩ (.err "boom")
      = { db := [], found := 0, inserted := 0, skipped := 0, consec := 5, reAttempts := 1 }
    ∧ termStep "BC" (fun _ => true) ⟨[], 0, 0, 0, 4, 0⟩ (.err "boom")
      = { db := [], found := 0, inserted := 0, skipped := 0, consec := 0, reAttempts := 1 }
    ∧ termStep "BC" (fun _ => true) ⟨[], 0, 0, 0, 1, 0⟩ (.err "boom")
      = { db := [], found := 0, inserted := 0, skipped := 0, consec := 2, reAttempts := 0 } :=
  ⟨consecutive_failure_policy.2.2.2.1 "BC" (fun _ => false) ⟨[], 0, 0, 0, 4, 0⟩ "boom"
      (by norm_num) rfl,
   consecutive_failure_policy.2.2.1 "BC" (fun _ => true) ⟨[], 0, 0, 0, 4, 0⟩ "boom"
      (by norm_num) rfl,
   consecutive_failure_policy.2.1 "BC" (fun _ => true) ⟨[], 0, 0, 0, 1, 0⟩ "boom"
      (by norm_num)⟩

/-- C9 (confirmed).  Every scrape run takes its job row from running to
exactly one terminal status by the time the entry point returns: the
status history is running followed by the single terminal status, which
is completed with the counts on normal completion and failed with the
error message when setup throws; no run leaves the job in running. -/
theorem job_lifecycle_terminal :
    ∀ (p : String) (setup : Except String Unit) (terms : List TermOutcome)
      (reEstOk : ℕ → Bool) (db : List String),
      (scrapeRun p setup terms reEstOk db).statusHistory
          = [JobStatus.running, (scrapeRun p setup terms reEstOk db).job]
      ∧ ((∃ f i s, (scrapeRun p setup terms reEstOk db).job = JobStatus.completed f i s)
          ∨ (∃ m, (scrapeRun p setup terms reEstOk db).job = JobStatus.failedJob m))
      ∧ (scrapeRun p setup terms reEstOk db).job ≠ JobStatus.running := by
  intro p setup terms reEstOk db
  cases setup with
  | error m => exact ⟨rfl, Or.inr ⟨m, rfl⟩, by simp [scrapeRun]⟩
  | ok u =>
      cases u
      exact ⟨rfl, Or.inl ⟨_, _, _, rfl⟩, by simp [scrapeRun]⟩
